import Mathlib

/-!
Shallow embedding of the plant-care firmware `sys_controller.ino`
(EEPROM event log, serial command processor, auto-control task) and
verification of its stated properties.

Conventions of the embedding:
* Machine integers are `Nat` with explicit `% 2^w` where the width matters
  (the `Event` struct fields are `uint32`/`uint8`/`uint16`).
* `RECORD_SIZE = sizeof(Event) = 7` on AVR (avr-gcc packs the
  `{uint32_t; uint8_t; uint16_t}` struct with no padding).
* The EEPROM log area is modelled slot-wise (`Nat → Event`): every
  `EEPROM.put`/`EEPROM.get` issued by the log code targets an address
  `LOG_START_ADDRESS + slot * RECORD_SIZE`, so a slot-indexed store is a
  faithful view of the byte array.  Byte-level bounds facts are stated
  over the literal loop offsets (`clearLogsOffsets`).
* Serial output is modelled as a list of `Out` items; the record lines a
  dump emits are the `List Event` carried by `Out.dumped`.
-/

set_option maxRecDepth 20000

namespace SysController

/-- Record width `sizeof(Event)` on AVR: 4 + 1 + 2 bytes, no padding. -/
def RECORD_SIZE : Nat := 7

/-- Source constant `constexpr int LOG_START_ADDRESS = sizeof(uint32_t);`. -/
def LOG_START_ADDRESS : Nat := 4

/-- Reserved empty-slot timestamp `0xFFFFFFFF`. -/
def SENTINEL : Nat := 4294967295

/-- Source `struct Event { uint32_t timestamp; uint8_t eventType; uint16_t value; }`. -/
structure Event where
  timestamp : Nat
  eventType : Nat
  value : Nat
deriving DecidableEq

/-- The record `clearLogs` writes into every slot: `{0xFFFFFFFF, 0, 0}`. -/
def emptyEvent : Event := ⟨SENTINEL, 0, 0⟩

/-- Source expression `EEPROM.length() - LOG_START_ADDRESS`. -/
def logDataAreaLength (len : Nat) : Nat := len - LOG_START_ADDRESS

/-- Source expression `logDataAreaLength / RECORD_SIZE * RECORD_SIZE`, the record-aligned usable length. -/
def usableLogLength (len : Nat) : Nat :=
  logDataAreaLength len / RECORD_SIZE * RECORD_SIZE

/-- Number of whole records the log region holds. -/
def numSlots (len : Nat) : Nat := logDataAreaLength len / RECORD_SIZE

/-- Truncation of the three fields to their declared struct widths, as
performed by `EEPROM.put(nextAddr, Event{currentTime, type, value})`. -/
def mkRecord (t0 ty v : Nat) : Event := ⟨t0 % 4294967296, ty % 256, v % 65536⟩

/-- Global firmware state touched by the modelled code: the EEPROM log
region (slot-indexed), the persisted clock cell at address 0, the write
cursor `nextAddr`, `EEPROM.length()`, the thresholds, the latest sensor
readings, the actuator states and `currentTime`. -/
@[ext]
structure SysState where
  eeprom : Nat → Event
  storedTime : Nat
  nextAddr : Nat
  eepromLen : Nat
  moistureTh : Nat
  lightTh : Nat
  moisture : Nat
  light : Nat
  irrigationOn : Bool
  globalBrightness : Nat
  currentTime : Nat

/-- Source `logEvent(type, value)`: computes the guarded usable length, refuses to
write when it is zero, otherwise puts `{currentTime, type, value}` at
`nextAddr` and advances the cursor, wrapping at the region end.  Also
returns the record that was physically appended (if any). -/
def logEventO (s : SysState) (ty v : Nat) : SysState × Option Event :=
  let usable :=
    if RECORD_SIZE ≤ logDataAreaLength s.eepromLen then usableLogLength s.eepromLen else 0
  if usable = 0 then (s, none)
  else
    let ev := mkRecord s.currentTime ty v
    let slot := (s.nextAddr - LOG_START_ADDRESS) / RECORD_SIZE
    let na := s.nextAddr + RECORD_SIZE
    ({ s with
        eeprom := fun i => if i = slot then ev else s.eeprom i,
        nextAddr := if LOG_START_ADDRESS + usable ≤ na then LOG_START_ADDRESS else na },
      some ev)

/-- The `logEvent` call as a pure state transformer. -/
def logEvent (s : SysState) (ty v : Nat) : SysState := (logEventO s ty v).1

/-- The record lines `printLogs` emits, scanning slots `i, i+1, …` for at
most `n` further slots and stopping at the first sentinel timestamp. -/
def dumpFrom (e : Nat → Event) : Nat → Nat → List Event
  | _, 0 => []
  | i, n + 1 => if (e i).timestamp = SENTINEL then [] else e i :: dumpFrom e (i + 1) n

/-- Source `printLogs()`: iterates the log region from its start, emitting each
record until a sentinel timestamp or the region end. -/
def printLogs (s : SysState) : List Event := dumpFrom s.eeprom 0 (numSlots s.eepromLen)

/-- The offsets at which the `clearLogs` loop starts a record write:
`for (offset = 0; offset < logDataAreaLength; offset += RECORD_SIZE)`. -/
def clearLogsOffsets (len : Nat) : List Nat :=
  (List.range ((logDataAreaLength len + RECORD_SIZE - 1) / RECORD_SIZE)).map
    (· * RECORD_SIZE)

/-- Source `clearLogs()`: writes `emptyEvent` at every loop offset (slot
`offset / RECORD_SIZE`) and resets `nextAddr` to the region start. -/
def clearLogs (s : SysState) : SysState :=
  { s with
    eeprom :=
      (clearLogsOffsets s.eepromLen).foldl
        (fun e o => fun i => if i = o / RECORD_SIZE then emptyEvent else e i) s.eeprom,
    nextAddr := LOG_START_ADDRESS }

/-- Serial traffic produced by command handling. -/
inductive Out where
  | unknown (cmd : List Char)
  | dumped (records : List Event)
  | moistResp (v : Nat)
  | lightResp (v : Nat)
  | appended (e : Event)
deriving DecidableEq

/-- ASCII digit test, as `atoi`/`atol` classify characters. -/
def isDigitC (c : Char) : Bool := decide (48 ≤ c.toNat ∧ c.toNat ≤ 57)

/-- Whitespace skipped by `atoi`/`atol` (space and tab suffice for the
line-based command strings, which never contain `\n`/`\r`). -/
def isSpaceC (c : Char) : Bool := decide (c.toNat = 32 ∨ c.toNat = 9)

/-- Numeric value of the leading digit run. -/
def digitsVal (l : List Char) : Nat := l.foldl (fun a c => a * 10 + (c.toNat - 48)) 0

/-- Signed decimal parse of the leading token (unbounded value). -/
def parseIntRaw (l : List Char) : Int :=
  match l with
  | [] => 0
  | c :: rest =>
    if c = '-' then -(digitsVal (rest.takeWhile isDigitC) : Int)
    else if c = '+' then (digitsVal (rest.takeWhile isDigitC) : Int)
    else (digitsVal (l.takeWhile isDigitC) : Int)

/-- Two's-complement wrap of an integer to `w` bits. -/
def wrapInt (w : Nat) (v : Int) : Int := (v + 2 ^ (w - 1)) % 2 ^ w - 2 ^ (w - 1)

/-- Reinterpretation of an integer as a `w`-bit unsigned value. -/
def toUInt (w : Nat) (v : Int) : Nat := (v % 2 ^ w).toNat

/-- avr-libc `atoi`: 16-bit `int` result. -/
def atoi (l : List Char) : Int := wrapInt 16 (parseIntRaw (l.dropWhile isSpaceC))

/-- avr-libc `atol`: 32-bit `long` result. -/
def atol (l : List Char) : Int := wrapInt 32 (parseIntRaw (l.dropWhile isSpaceC))

/-- Arduino `constrain(amt, low, high)` on unsigned values. -/
def constrainN (x lo hi : Nat) : Nat := if x < lo then lo else if hi < x then hi else x

/-- Arduino `constrain(amt, low, high)` on signed values. -/
def constrainI (x lo hi : Int) : Int := if x < lo then lo else if hi < x then hi else x

/-- Arduino `map(x, in_min, in_max, out_min, out_max)` over `long`, with
C++ division truncating toward zero. -/
def mapArduino (x inMin inMax outMin outMax : Int) : Int :=
  Int.tdiv ((x - inMin) * (outMax - outMin)) (inMax - inMin) + outMin

/-- AVR `static_cast<int>`: two's-complement wrap to 16 bits. -/
def toInt16 (v : Int) : Int := wrapInt 16 v

/-- Source `setLightPins(brightness)`: `globalBrightness = constrain(brightness, 0, 255)`. -/
def setLightBrightness (brightness : Int) : Nat := (constrainI brightness 0 255).toNat

/-- The brightness commanded by the auto-control tick:
`setLightPins(static_cast<int>(map(localLight, 0, lightTh, 255, 0)))`. -/
def autoBrightness (lightReading lightTh : Nat) : Nat :=
  setLightBrightness (toInt16 (mapArduino lightReading 0 lightTh 255 0))

/-- Brightness as the specification words it:
`clamp(map(reading, 0, light_threshold, 255, 0), 0, 255)` with no
intermediate 16-bit truncation.  (Spec-side definition, for comparison.) -/
def specBrightness (lightReading lightTh : Nat) : Nat :=
  (constrainI (mapArduino lightReading 0 lightTh 255 0) 0 255).toNat

/-- Source `logCurrentSystemState()`: the six snapshot log writes issued after a
`D` (clear) command, in program order. -/
def logCurrentSystemState (s : SysState) : SysState × List Out :=
  let (s1, o1) := logEventO s 4 s.moisture
  let (s2, o2) := logEventO s1 5 s1.light
  let (s3, o3) := logEventO s2 3 s2.moistureTh
  let (s4, o4) := logEventO s3 2 s3.lightTh
  let (s5, o5) := logEventO s4 0 (if s4.irrigationOn then 1 else 0)
  let (s6, o6) := logEventO s5 1 s5.globalBrightness
  (s6, (o1.toList ++ o2.toList ++ o3.toList ++ o4.toList ++ o5.toList ++ o6.toList).map
        Out.appended)

/-- Source `handleCommand(cmd)`: the dispatch chain, in the source's order —
empty line, `T…`, `"G"`, `"D"`, `"X"`, `"Z"`, then the two-character
key/value commands `L…`/`M…`, and finally `unknownCommand`. -/
def handleCommand (s : SysState) (cmd : List Char) : SysState × List Out :=
  match cmd with
  | [] => (s, [])
  | c :: rest =>
    if c = 'T' then
      let t := toUInt 32 (atol rest)
      ({ s with currentTime := t, storedTime := t }, [])
    else if cmd = ['G'] then (s, [Out.dumped (printLogs s)])
    else if cmd = ['D'] then logCurrentSystemState (clearLogs s)
    else if cmd = ['X'] then (s, [Out.moistResp s.moistureTh])
    else if cmd = ['Z'] then (s, [Out.lightResp s.lightTh])
    else if 2 ≤ cmd.length ∧ c = 'L' then
      let th := constrainN (toUInt 16 (atoi rest)) 0 1023
      ((logEventO { s with lightTh := th } 2 th).1,
        (logEventO { s with lightTh := th } 2 th).2.toList.map Out.appended)
    else if 2 ≤ cmd.length ∧ c = 'M' then
      let th := constrainN (toUInt 16 (atoi rest)) 0 1023
      ((logEventO { s with moistureTh := th } 3 th).1,
        (logEventO { s with moistureTh := th } 3 th).2.toList.map Out.appended)
    else (s, [Out.unknown cmd])

/-- Source line `#define CMD_BUFFER_SIZE 12`. -/
def CMD_BUFFER_SIZE : Nat := 12

/-- Serial-task observable events: an overflow error print, or a
completed line handed to `handleCommand` together with its outputs. -/
inductive SOut where
  | overflowErr
  | handled (cmd : List Char) (outs : List Out)
deriving DecidableEq

/-- Device state plus the line-accumulation buffer of `serialComTask`
(the first `buffer_index` characters of `cmd_buffer`). -/
structure ComState where
  sys : SysState
  buf : List Char

/-- One received character, as processed by `serialComTask`: a terminator
dispatches a non-empty buffer; a fitting character is accumulated;
otherwise the overflow error is printed and `buffer_index` reset. -/
def serialRxChar (cs : ComState) (ch : Char) : ComState × List SOut :=
  if ch = '\n' ∨ ch = '\r' then
    if cs.buf = [] then (cs, [])
    else
      (⟨(handleCommand cs.sys cs.buf).1, []⟩,
        [SOut.handled cs.buf (handleCommand cs.sys cs.buf).2])
  else if cs.buf.length < CMD_BUFFER_SIZE - 1 then ({ cs with buf := cs.buf ++ [ch] }, [])
  else ({ cs with buf := [] }, [SOut.overflowErr])

/-- The `serialComTask` byte loop over a whole byte sequence. -/
def serialRxAll (cs : ComState) : List Char → ComState × List SOut
  | [] => (cs, [])
  | ch :: chs =>
    ((serialRxAll (serialRxChar cs ch).1 chs).1,
      (serialRxChar cs ch).2 ++ (serialRxAll (serialRxChar cs ch).1 chs).2)

/-- One `append(event_type, value, now)` of the specification: the clock
stands at `now` when `logEvent(type, value)` runs. -/
structure AppendReq where
  eventType : Nat
  value : Nat
  now : Nat
deriving DecidableEq

/-- Append a record at clock value `req.now`. -/
def append (s : SysState) (req : AppendReq) : SysState :=
  logEvent { s with currentTime := req.now } req.eventType req.value

/-- A sequence of appends. -/
def appendAll (s : SysState) (rs : List AppendReq) : SysState := rs.foldl append s

/-- The record an append request should produce, per the data model. -/
def reqEvent (r : AppendReq) : Event := ⟨r.now, r.eventType, r.value⟩

/-- The request's fields fit their struct widths and the timestamp is not
the reserved empty-slot sentinel (the data model's validity condition). -/
def ValidReq (r : AppendReq) : Prop :=
  r.now < 4294967296 ∧ r.now ≠ SENTINEL ∧ r.eventType < 256 ∧ r.value < 65536

instance (r : AppendReq) : Decidable (ValidReq r) := by
  unfold ValidReq; infer_instance

/-- Cleared log: every slot of the region carries the sentinel timestamp
and the write cursor sits at the region start. -/
def ClearedLog (s : SysState) : Prop :=
  (∀ i, i < numSlots s.eepromLen → (s.eeprom i).timestamp = SENTINEL) ∧
    s.nextAddr = LOG_START_ADDRESS

instance (s : SysState) : Decidable (ClearedLog s) := by
  unfold ClearedLog; infer_instance

/-- One tick of the auto-irrigation hysteresis branch of
`autoControlTask`, returning the records it appends. -/
def autoIrrigStep (s : SysState) (m : Nat) : SysState × List Event :=
  if s.moistureTh < m ∧ s.irrigationOn = false then
    ((logEventO { s with irrigationOn := true } 0 1).1,
      (logEventO { s with irrigationOn := true } 0 1).2.toList)
  else if m ≤ s.moistureTh ∧ s.irrigationOn = true then
    ((logEventO { s with irrigationOn := false } 0 0).1,
      (logEventO { s with irrigationOn := false } 0 0).2.toList)
  else (s, [])

/-- The auto-irrigation branch over a sequence of moisture readings. -/
def autoIrrigRun (s : SysState) : List Nat → SysState × List Event
  | [] => (s, [])
  | m :: ms =>
    ((autoIrrigRun (autoIrrigStep s m).1 ms).1,
      (autoIrrigStep s m).2 ++ (autoIrrigRun (autoIrrigStep s m).1 ms).2)

/-- The log entries the spec expects from a reading sequence: one entry
per threshold crossing, value 1 when switching ON and 0 when switching
OFF, timestamp `t0`. -/
def irrigCrossLog (t0 th : Nat) : Bool → List Nat → List Event
  | _, [] => []
  | b, m :: ms =>
    let d := decide (th < m)
    if d = b then irrigCrossLog t0 th b ms
    else ⟨t0, 0, if d then 1 else 0⟩ :: irrigCrossLog t0 th d ms

/-- Number of threshold crossings of a reading sequence, starting from
irrigation state `b`. -/
def crossingCount (th : Nat) : Bool → List Nat → Nat
  | _, [] => 0
  | b, m :: ms =>
    let d := decide (th < m)
    (if d = b then 0 else 1) + crossingCount th d ms

/-- Value of `EEPROM.length()` on the ATmega328P the sketch targets. -/
def AVR_EEPROM_LENGTH : Nat := 1024

/-- Device state right after `setup()` with a fully erased log region:
the global initialisers of the sketch. -/
def initState : SysState :=
  { eeprom := fun _ => emptyEvent
    storedTime := 0
    nextAddr := LOG_START_ADDRESS
    eepromLen := AVR_EEPROM_LENGTH
    moistureTh := 500
    lightTh := 500
    moisture := 0
    light := 0
    irrigationOn := false
    globalBrightness := 0
    currentTime := 1704067200 }

/-! ### Helper lemmas about the event log -/

theorem usable_eq_numSlots_mul (len : Nat) :
    usableLogLength len = numSlots len * RECORD_SIZE := rfl

theorem usable_guard_eq (len : Nat) :
    (if RECORD_SIZE ≤ logDataAreaLength len then usableLogLength len else 0) =
      usableLogLength len := by
  by_cases h : RECORD_SIZE ≤ logDataAreaLength len
  · simp [h]
  · have h7 : logDataAreaLength len < RECORD_SIZE := Nat.lt_of_not_le h
    simp [h, usableLogLength, Nat.div_eq_of_lt h7]

theorem logEventO_step (s : SysState) (ty v j : Nat)
    (hna : s.nextAddr = LOG_START_ADDRESS + j * RECORD_SIZE)
    (hj : j < numSlots s.eepromLen) :
    logEventO s ty v =
      ({ s with
          eeprom := fun i => if i = j then mkRecord s.currentTime ty v else s.eeprom i,
          nextAddr :=
            LOG_START_ADDRESS + (j + 1) % numSlots s.eepromLen * RECORD_SIZE },
        some (mkRecord s.currentTime ty v)) := by
  have hn : 0 < numSlots s.eepromLen := Nat.lt_of_le_of_lt (Nat.zero_le j) hj
  have husable : usableLogLength s.eepromLen ≠ 0 := by
    rw [usable_eq_numSlots_mul]
    have : (0 : Nat) < RECORD_SIZE := by decide
    positivity
  have hslot : (s.nextAddr - LOG_START_ADDRESS) / RECORD_SIZE = j := by
    rw [hna, Nat.add_sub_cancel_left, Nat.mul_div_cancel _ (by decide : 0 < RECORD_SIZE)]
  simp only [logEventO, usable_guard_eq, husable, if_false, hslot]
  refine congrArg₂ Prod.mk ?_ rfl
  ext i
  case eeprom => rfl
  all_goals
    simp only [hna]
  case nextAddr =>
    rcases Nat.lt_or_ge (j + 1) (numSlots s.eepromLen) with hlt | hge
    · have hcond : ¬ (LOG_START_ADDRESS + usableLogLength s.eepromLen ≤
          LOG_START_ADDRESS + j * RECORD_SIZE + RECORD_SIZE) := by
        rw [usable_eq_numSlots_mul]
        simp only [RECORD_SIZE, LOG_START_ADDRESS] at *
        omega
      rw [if_neg hcond, Nat.mod_eq_of_lt hlt]
      simp only [RECORD_SIZE, LOG_START_ADDRESS]
      ring
    · have heq : j + 1 = numSlots s.eepromLen := Nat.le_antisymm hj hge
      have hcond : LOG_START_ADDRESS + usableLogLength s.eepromLen ≤
          LOG_START_ADDRESS + j * RECORD_SIZE + RECORD_SIZE := by
        rw [usable_eq_numSlots_mul, ← heq]
        simp only [RECORD_SIZE, LOG_START_ADDRESS]
        omega
      rw [if_pos hcond, heq, Nat.mod_self]
      simp

theorem mkRecord_eq_reqEvent (r : AppendReq) (h : ValidReq r) :
    mkRecord r.now r.eventType r.value = reqEvent r := by
  obtain ⟨h1, _, h3, h4⟩ := h
  unfold mkRecord reqEvent
  rw [Nat.mod_eq_of_lt h1, Nat.mod_eq_of_lt h3, Nat.mod_eq_of_lt h4]

theorem append_step (s : SysState) (r : AppendReq) (j : Nat)
    (hna : s.nextAddr = LOG_START_ADDRESS + j * RECORD_SIZE)
    (hj : j < numSlots s.eepromLen) (hr : ValidReq r) :
    append s r =
      { s with
        currentTime := r.now
        eeprom := fun i => if i = j then reqEvent r else s.eeprom i
        nextAddr := LOG_START_ADDRESS + (j + 1) % numSlots s.eepromLen * RECORD_SIZE } := by
  unfold append logEvent
  rw [logEventO_step { s with currentTime := r.now } r.eventType r.value j hna hj,
    mkRecord_eq_reqEvent r hr]

theorem appendAll_flat (rs : List AppendReq) :
    ∀ (s : SysState) (j : Nat),
      s.nextAddr = LOG_START_ADDRESS + j * RECORD_SIZE →
      j < numSlots s.eepromLen →
      j + rs.length ≤ numSlots s.eepromLen →
      (∀ r ∈ rs, ValidReq r) →
      (appendAll s rs).eepromLen = s.eepromLen ∧
      (appendAll s rs).nextAddr =
        LOG_START_ADDRESS + (j + rs.length) % numSlots s.eepromLen * RECORD_SIZE ∧
      (∀ i, i < j → (appendAll s rs).eeprom i = s.eeprom i) ∧
      (∀ i, i < rs.length →
        (appendAll s rs).eeprom (j + i) = reqEvent (rs.getD i ⟨0, 0, 0⟩)) ∧
      (∀ i, j + rs.length ≤ i → (appendAll s rs).eeprom i = s.eeprom i) := by
  induction rs with
  | nil =>
    intro s j hna hj _ _
    refine ⟨rfl, ?_, fun i _ => rfl, fun i hi => absurd hi (by simp), fun i _ => rfl⟩
    simpa [appendAll, Nat.mod_eq_of_lt hj] using hna
  | cons r rest ih =>
    intro s j hna hj hcap hval
    have hrv : ValidReq r := hval r (by simp)
    have hstep := append_step s r j hna hj hrv
    have hfold : appendAll s (r :: rest) = appendAll (append s r) rest := rfl
    rcases List.eq_nil_or_concat rest with hrest | _
    · subst hrest
      have hone : appendAll s [r] = append s r := rfl
      rw [hone, hstep]
      refine ⟨rfl, by simp, ?_, ?_, ?_⟩
      · intro i hi
        simp [Nat.ne_of_lt hi]
      · intro i hi
        have hi0 : i = 0 := by simp at hi; omega
        subst hi0
        simp
      · intro i hi
        have hij : i ≠ j := by simp at hi; omega
        simp [hij]
    · have hlen1 : 1 ≤ rest.length := by
        rcases rest with _ | _
        · simp_all
        · simp
      have hj1 : j + 1 < numSlots s.eepromLen := by
        simp only [List.length_cons] at hcap
        omega
      have hs1len : (append s r).eepromLen = s.eepromLen := by rw [hstep]
      have hs1na : (append s r).nextAddr =
          LOG_START_ADDRESS + (j + 1) * RECORD_SIZE := by
        rw [hstep]
        simp [Nat.mod_eq_of_lt hj1]
      have ihr := ih (append s r) (j + 1) hs1na (by rw [hs1len]; exact hj1)
        (by rw [hs1len]; simp only [List.length_cons] at hcap; omega)
        (fun q hq => hval q (by simp [hq]))
      rw [hs1len] at ihr
      obtain ⟨ih1, ih2, ih3, ih4, ih5⟩ := ihr
      rw [hfold]
      refine ⟨ih1, ?_, ?_, ?_, ?_⟩
      · rw [ih2]
        have : j + 1 + rest.length = j + (r :: rest).length := by simp; omega
        rw [this]
      · intro i hi
        rw [ih3 i (by omega), hstep]
        simp [Nat.ne_of_lt hi]
      · intro i hi
        rcases i with _ | i'
        · rw [Nat.add_zero, ih3 j (by omega), hstep]
          simp
        · have : j + (i' + 1) = j + 1 + i' := by omega
          rw [this, ih4 i' (by simpa using hi)]
          simp
      · intro i hi
        simp only [List.length_cons] at hi
        rw [ih5 i (by omega), hstep]
        have : i ≠ j := by omega
        simp [this]

theorem dumpFrom_eq (n : Nat) :
    ∀ (i m : Nat) (e : Nat → Event),
      m ≤ n →
      (∀ k, k < m → (e (i + k)).timestamp ≠ SENTINEL) →
      (m < n → (e (i + m)).timestamp = SENTINEL) →
      dumpFrom e i n = (List.range m).map (fun k => e (i + k)) := by
  induction n with
  | zero =>
    intro i m e hm _ _
    interval_cases m
    rfl
  | succ n ih =>
    intro i m e hm hne hsent
    rcases m with _ | m'
    · have h0 : (e i).timestamp = SENTINEL := by
        simpa using hsent (Nat.succ_pos n)
      simp [dumpFrom, h0]
    · have h0 : (e i).timestamp ≠ SENTINEL := by
        simpa using hne 0 (Nat.succ_pos m')
      have hrec := ih (i + 1) m' e (by omega)
        (fun k hk => by
          have : i + 1 + k = i + (k + 1) := by omega
          rw [this]
          exact hne (k + 1) (by omega))
        (fun hlt => by
          have : i + 1 + m' = i + (m' + 1) := by omega
          rw [this]
          exact hsent (by omega))
      simp only [dumpFrom, h0, if_false, hrec, List.range_succ_eq_map, List.map_cons,
        List.map_map]
      refine congrArg₂ List.cons (by rw [Nat.add_zero]) ?_
      refine List.map_congr_left fun k _ => ?_
      simp only [Function.comp_apply, Nat.succ_eq_add_one]
      have : i + 1 + k = i + (k + 1) := by omega
      rw [this]

theorem clear_foldl_eeprom (e : Nat → Event) :
    ∀ n i,
      (((List.range n).map (· * RECORD_SIZE)).foldl
        (fun f o => fun x => if x = o / RECORD_SIZE then emptyEvent else f x) e) i =
      if i < n then emptyEvent else e i := by
  intro n
  induction n with
  | zero => intro i; simp
  | succ n ih =>
    intro i
    rw [List.range_succ, List.map_append, List.foldl_append]
    simp only [List.map_cons, List.map_nil, List.foldl_cons, List.foldl_nil,
      Nat.mul_div_cancel _ (by decide : 0 < RECORD_SIZE)]
    by_cases hi : i = n
    · simp [hi]
    · rw [if_neg hi, ih i]
      by_cases hlt : i < n
      · rw [if_pos hlt, if_pos (by omega)]
      · rw [if_neg hlt, if_neg (by omega)]

theorem clearLogs_eeprom (s : SysState) (i : Nat) :
    (clearLogs s).eeprom i =
      if i < (logDataAreaLength s.eepromLen + RECORD_SIZE - 1) / RECORD_SIZE then
        emptyEvent
      else s.eeprom i := by
  unfold clearLogs clearLogsOffsets
  exact clear_foldl_eeprom s.eeprom _ i

theorem clearLogs_eeprom_of_lt (s : SysState) (i : Nat) (hi : i < numSlots s.eepromLen) :
    (clearLogs s).eeprom i = emptyEvent := by
  have hle : numSlots s.eepromLen ≤
      (logDataAreaLength s.eepromLen + RECORD_SIZE - 1) / RECORD_SIZE := by
    have h7 : (1 : Nat) ≤ RECORD_SIZE := by decide
    unfold numSlots
    exact Nat.div_le_div_right (by omega)
  have hlt : i < (logDataAreaLength s.eepromLen + RECORD_SIZE - 1) / RECORD_SIZE :=
    Nat.lt_of_lt_of_le hi hle
  rw [clearLogs_eeprom, if_pos hlt]

/-! ### Claim theorems -/

/-- C1: starting from a cleared (all-sentinel) log with the cursor at the
region start, every sequence of `append(event_type, value, now)` calls of
length at most the log region's record capacity is reproduced exactly by
a subsequent dump — same records, same order, timestamp, event-type and
value fields unmodified (fields within their struct widths, timestamps
distinct from the empty-slot sentinel, per the data model). -/
theorem c1_append_then_dump_exact (s : SysState) (rs : List AppendReq)
    (hclr : ClearedLog s) (hlen : rs.length ≤ numSlots s.eepromLen)
    (hval : ∀ r ∈ rs, ValidReq r) :
    printLogs (appendAll s rs) = rs.map reqEvent := by
  obtain ⟨hsent, hna⟩ := hclr
  rcases Nat.eq_zero_or_pos (numSlots s.eepromLen) with hn0 | hn
  · have hrs : rs = [] := List.eq_nil_of_length_eq_zero (by omega)
    subst hrs
    show printLogs s = []
    simp [printLogs, hn0, dumpFrom]
  · have h0 : s.nextAddr = LOG_START_ADDRESS + 0 * RECORD_SIZE := by simpa using hna
    obtain ⟨hL, _, _, hMid, hHi⟩ := appendAll_flat rs s 0 h0 hn (by omega) hval
    unfold printLogs
    rw [hL]
    rw [dumpFrom_eq (numSlots s.eepromLen) 0 rs.length _ hlen ?_ ?_]
    · refine List.ext_getElem (by simp) ?_
      intro i h1 h2
      simp only [List.getElem_map, List.getElem_range] at *
      have := hMid i (by simpa using h1)
      rw [this, List.getD_eq_getElem rs _ (by simpa using h2)]
    · intro k hk
      rw [hMid k hk]
      have hkmem : rs.getD k ⟨0, 0, 0⟩ ∈ rs := by
        rw [List.getD_eq_getElem rs _ hk]
        exact List.getElem_mem _
      exact (hval _ hkmem).2.1
    · intro hlt
      rw [hHi (0 + rs.length) (Nat.le_refl _)]
      exact hsent _ (by omega)

/-- Two appends on the freshly initialised device, for the C1 witness. -/
def demoReqs : List AppendReq := [⟨4, 7, 1000⟩, ⟨0, 1, 1001⟩]

theorem c1_append_then_dump_exact_witness :
    (ClearedLog initState ∧ demoReqs.length ≤ numSlots initState.eepromLen ∧
      (∀ r ∈ demoReqs, ValidReq r)) ∧
    printLogs (appendAll initState demoReqs) = demoReqs.map reqEvent :=
  ⟨⟨by decide, by decide, by decide⟩,
    c1_append_then_dump_exact initState demoReqs (by decide) (by decide) (by decide)⟩

/-- C2: with the log region holding exactly `k` records, `k + 1` appends
from a cleared log overwrite the oldest record first: the subsequent dump
holds record `#(k+1)` (in slot 0) followed by records `#2 … #k` — record
`#1` is gone; after the first `k` appends the cursor has wrapped to the
region start, and after every prefix of the appends the next write still
fits inside the log region. -/
theorem c2_wrap_overwrites_oldest (s : SysState) (rs : List AppendReq)
    (hclr : ClearedLog s) (hk : 1 ≤ numSlots s.eepromLen)
    (hlen : rs.length = numSlots s.eepromLen + 1)
    (hval : ∀ r ∈ rs, ValidReq r) :
    printLogs (appendAll s rs) =
      reqEvent (rs.getD (numSlots s.eepromLen) ⟨0, 0, 0⟩) ::
        ((rs.drop 1).take (numSlots s.eepromLen - 1)).map reqEvent ∧
    (appendAll s (rs.take (numSlots s.eepromLen))).nextAddr = LOG_START_ADDRESS ∧
    (∀ n, n ≤ rs.length →
      (appendAll s (rs.take n)).nextAddr + RECORD_SIZE ≤
        LOG_START_ADDRESS + usableLogLength s.eepromLen) := by
  obtain ⟨hsent, hna⟩ := hclr
  have h0 : s.nextAddr = LOG_START_ADDRESS + 0 * RECORD_SIZE := by simpa using hna
  set x := rs.getD (numSlots s.eepromLen) ⟨0, 0, 0⟩ with hxdef
  have hx : x ∈ rs := by
    rw [hxdef, List.getD_eq_getElem rs _ (by omega)]
    exact List.getElem_mem _
  have hxv : ValidReq x := hval _ hx
  have hlen1 : (rs.take (numSlots s.eepromLen)).length = numSlots s.eepromLen := by
    simp [hlen]
  obtain ⟨hL1, hNA1, _, hMid1, hHi1⟩ :=
    appendAll_flat (rs.take (numSlots s.eepromLen)) s 0 h0 (by omega)
      (by rw [hlen1]; omega) (fun q hq => hval q (List.mem_of_mem_take hq))
  rw [hlen1] at hNA1 hHi1
  set s1 := appendAll s (rs.take (numSlots s.eepromLen)) with hs1
  have hNA1' : s1.nextAddr = LOG_START_ADDRESS := by
    rw [hNA1, Nat.zero_add, Nat.mod_self, Nat.zero_mul, Nat.add_zero]
  have hMid1' : ∀ i, i < numSlots s.eepromLen →
      s1.eeprom i = reqEvent (rs.getD i ⟨0, 0, 0⟩) := by
    intro i hi
    have h1 := hMid1 i (by rw [hlen1]; omega)
    rw [Nat.zero_add] at h1
    rw [h1, List.getD_eq_getElem _ _ (by rw [hlen1]; omega),
      List.getD_eq_getElem rs _ (by omega)]
    congr 1
    exact List.getElem_take rs
  have hdrop : rs.drop (numSlots s.eepromLen) = [x] := by
    refine List.ext_getElem (by simp [hlen]) ?_
    intro i h1 h2
    have hi0 : i = 0 := by simpa using h2
    subst hi0
    rw [List.getElem_drop, List.getElem_cons_zero, hxdef,
      List.getD_eq_getElem rs _ (by omega)]
    simp
  have hsplit : appendAll s rs = append s1 x := by
    calc appendAll s rs
        = appendAll s (rs.take (numSlots s.eepromLen) ++
            rs.drop (numSlots s.eepromLen)) := by
          rw [List.take_append_drop]
      _ = appendAll s (rs.take (numSlots s.eepromLen) ++ [x]) := by rw [hdrop]
      _ = append s1 x := by
          rw [hs1]
          simp [appendAll, List.foldl_append]
  have hstep := append_step s1 x 0 (by rw [hNA1']; simp) (by rw [hL1]; omega) hxv
  have hfL : (append s1 x).eepromLen = s.eepromLen := by rw [hstep]; exact hL1
  have heep : (append s1 x).eeprom =
      fun i => if i = 0 then reqEvent x else s1.eeprom i := by rw [hstep]
  refine ⟨?_, hNA1', ?_⟩
  · rw [hsplit]
    unfold printLogs
    rw [hfL]
    rw [dumpFrom_eq (numSlots s.eepromLen) 0 (numSlots s.eepromLen) _ (Nat.le_refl _)
      ?_ (fun h => absurd h (lt_irrefl _))]
    · refine List.ext_getElem ?_ ?_
      · simp [hlen]
        omega
      · intro i hmap hcons
        simp only [List.getElem_map, List.getElem_range, Nat.zero_add, heep]
        rcases i with _ | i'
        · simp
        · have hik : i' + 1 < numSlots s.eepromLen := by
            simpa using hmap
          rw [if_neg (Nat.succ_ne_zero i'), hMid1' _ hik, List.getElem_cons_succ,
            List.getElem_map, List.getD_eq_getElem rs _ (by omega)]
          congr 1
          rw [List.getElem_take, List.getElem_drop]
          simp [Nat.add_comm]
    · intro k hk
      simp only [Nat.zero_add, heep]
      rcases k with _ | k'
      · simp only [if_pos rfl]
        exact hxv.2.1
      · rw [if_neg (Nat.succ_ne_zero k')]
        rw [hMid1' _ hk]
        have hmem : rs.getD (k' + 1) ⟨0, 0, 0⟩ ∈ rs := by
          rw [List.getD_eq_getElem rs _ (by omega)]
          exact List.getElem_mem _
        exact (hval _ hmem).2.1
  · intro n hn
    rcases Nat.lt_or_ge n (numSlots s.eepromLen + 1) with hlt | hge
    · have hlenn : (rs.take n).length = n := by simp [hlen]; omega
      obtain ⟨_, hNAn, _, _, _⟩ :=
        appendAll_flat (rs.take n) s 0 h0 (by omega) (by rw [hlenn]; omega)
          (fun q hq => hval q (List.mem_of_mem_take hq))
      rw [hlenn, Nat.zero_add] at hNAn
      rw [hNAn, usable_eq_numSlots_mul]
      have hm : n % numSlots s.eepromLen < numSlots s.eepromLen :=
        Nat.mod_lt _ (by omega)
      simp only [RECORD_SIZE, LOG_START_ADDRESS] at *
      omega
    · have hn' : n = rs.length := by omega
      rw [hn', List.take_length, hsplit]
      have hfna : (append s1 x).nextAddr =
          LOG_START_ADDRESS + (0 + 1) % numSlots s1.eepromLen * RECORD_SIZE := by
        rw [hstep]
      rw [hfna, hL1, usable_eq_numSlots_mul]
      have hm : (0 + 1) % numSlots s.eepromLen < numSlots s.eepromLen :=
        Nat.mod_lt _ (by omega)
      simp only [RECORD_SIZE, LOG_START_ADDRESS] at *
      omega

/-- One more append request than the 145-slot log region of the
initialised device holds, for the C2 witness. -/
def demoWrapReqs : List AppendReq :=
  (List.range (numSlots AVR_EEPROM_LENGTH + 1)).map (fun i => ⟨1, i, 1000 + i⟩)

theorem c2_wrap_overwrites_oldest_witness :
    (ClearedLog initState ∧ 1 ≤ numSlots initState.eepromLen ∧
      demoWrapReqs.length = numSlots initState.eepromLen + 1 ∧
      (∀ r ∈ demoWrapReqs, ValidReq r)) ∧
    (appendAll initState (demoWrapReqs.take (numSlots initState.eepromLen))).nextAddr =
      LOG_START_ADDRESS :=
  ⟨⟨by decide, by decide, by decide, by decide⟩,
    (c2_wrap_overwrites_oldest initState demoWrapReqs (by decide) (by decide)
      (by decide) (by decide)).2.1⟩

/-- C7: `clearLogs` overwrites every record slot of the log region with
the sentinel record and resets the cursor to the region start; a dump
right after yields zero records, and a single append followed by a dump
yields exactly that record, located in the slot at the region start. -/
theorem c7_clear_dump_append (s : SysState) (r : AppendReq)
    (hk : 1 ≤ numSlots s.eepromLen) (hr : ValidReq r) :
    printLogs (clearLogs s) = [] ∧
    (∀ i, i < numSlots s.eepromLen → (clearLogs s).eeprom i = emptyEvent) ∧
    (clearLogs s).nextAddr = LOG_START_ADDRESS ∧
    printLogs (append (clearLogs s) r) = [reqEvent r] ∧
    (append (clearLogs s) r).eeprom 0 = reqEvent r := by
  have hslot : ∀ i, i < numSlots s.eepromLen → (clearLogs s).eeprom i = emptyEvent :=
    fun i hi => clearLogs_eeprom_of_lt s i hi
  have hcna : (clearLogs s).nextAddr = LOG_START_ADDRESS := rfl
  have hstep := append_step (clearLogs s) r 0 (by rw [hcna]; simp) (by exact hk) hr
  have heep : (append (clearLogs s) r).eeprom =
      fun i => if i = 0 then reqEvent r else (clearLogs s).eeprom i := by rw [hstep]
  have hfL : (append (clearLogs s) r).eepromLen = s.eepromLen := by rw [hstep]; rfl
  refine ⟨?_, hslot, hcna, ?_, ?_⟩
  · unfold printLogs
    rw [dumpFrom_eq (numSlots (clearLogs s).eepromLen) 0 0 _ (Nat.zero_le _)
      (fun k hk => absurd hk (Nat.not_lt_zero k)) ?_]
    · simp
    · intro h0
      rw [Nat.add_zero, hslot 0 (by exact h0)]
      rfl
  · unfold printLogs
    rw [hfL]
    rw [dumpFrom_eq (numSlots s.eepromLen) 0 1 _ hk ?_ ?_]
    · simp [heep, List.range_succ]
    · intro k hk1
      have hk0 : k = 0 := by omega
      subst hk0
      simp only [Nat.add_zero, heep, if_pos rfl]
      exact hr.2.1
    · intro h1
      simp only [Nat.zero_add, heep]
      rw [if_neg (by omega), hslot 1 h1]
      rfl
  · rw [heep]
    simp

theorem c7_clear_dump_append_witness :
    (1 ≤ numSlots initState.eepromLen ∧ ValidReq ⟨4, 7, 1000⟩) ∧
    printLogs (clearLogs initState) = [] ∧
    printLogs (append (clearLogs initState) ⟨4, 7, 1000⟩) = [reqEvent ⟨4, 7, 1000⟩] :=
  ⟨⟨by decide, by decide⟩,
    (c7_clear_dump_append initState ⟨4, 7, 1000⟩ (by decide) (by decide)).1,
    (c7_clear_dump_append initState ⟨4, 7, 1000⟩ (by decide) (by decide)).2.2.2.1⟩

theorem logEventO_fst_fields (s : SysState) (ty v : Nat) :
    (logEventO s ty v).1.eepromLen = s.eepromLen ∧
    (logEventO s ty v).1.moistureTh = s.moistureTh ∧
    (logEventO s ty v).1.lightTh = s.lightTh ∧
    (logEventO s ty v).1.currentTime = s.currentTime ∧
    (logEventO s ty v).1.irrigationOn = s.irrigationOn := by
  unfold logEventO
  dsimp only
  split <;> split <;> exact ⟨rfl, rfl, rfl, rfl, rfl⟩

theorem logEventO_snd_of_pos (s : SysState) (ty v : Nat)
    (hn : 0 < numSlots s.eepromLen) :
    (logEventO s ty v).2 = some (mkRecord s.currentTime ty v) := by
  have husable : usableLogLength s.eepromLen ≠ 0 := by
    rw [usable_eq_numSlots_mul]
    have : (0 : Nat) < RECORD_SIZE := by decide
    positivity
  unfold logEventO
  dsimp only
  rw [usable_guard_eq, if_neg husable]

theorem irrigCrossLog_length (t0 th : Nat) :
    ∀ (b : Bool) (ms : List Nat),
      (irrigCrossLog t0 th b ms).length = crossingCount th b ms := by
  intro b ms
  induction ms generalizing b with
  | nil => rfl
  | cons m ms ih =>
    simp only [irrigCrossLog, crossingCount]
    by_cases hd : decide (th < m) = b
    · simp [hd, ih]
    · simp [hd, ih, Nat.add_comm]

theorem autoIrrigRun_log (ms : List Nat) :
    ∀ s : SysState, 0 < numSlots s.eepromLen → s.currentTime < 4294967296 →
      (autoIrrigRun s ms).2 =
        irrigCrossLog s.currentTime s.moistureTh s.irrigationOn ms := by
  induction ms with
  | nil => intro s _ _; rfl
  | cons m ms ih =>
    intro s hn ht
    obtain ⟨hL1, hM1, _, hT1, hI1⟩ :=
      logEventO_fst_fields { s with irrigationOn := true } 0 1
    obtain ⟨hL0, hM0, _, hT0, hI0⟩ :=
      logEventO_fst_fields { s with irrigationOn := false } 0 0
    by_cases h1 : s.moistureTh < m
    · have hd : decide (s.moistureTh < m) = true := by simpa using h1
      by_cases h2 : s.irrigationOn = false
      · -- switches ON, logs value 1
        have hstep : autoIrrigStep s m =
            ((logEventO { s with irrigationOn := true } 0 1).1,
              (logEventO { s with irrigationOn := true } 0 1).2.toList) := by
          unfold autoIrrigStep
          rw [if_pos ⟨h1, h2⟩]
        have hsnd := logEventO_snd_of_pos { s with irrigationOn := true } 0 1 hn
        have hrec := ih (logEventO { s with irrigationOn := true } 0 1).1
          (by rw [hL1]; exact hn) (by rw [hT1]; exact ht)
        rw [hM1, hT1, hI1] at hrec
        simp only [autoIrrigRun, hstep, hsnd, hrec, irrigCrossLog, hd, h2]
        simp [mkRecord, Nat.mod_eq_of_lt ht]
      · have h2' : s.irrigationOn = true := by
          simpa using h2
        have hstep : autoIrrigStep s m = (s, []) := by
          unfold autoIrrigStep
          rw [if_neg (by simp [h2']), if_neg (by simp [h2', Nat.not_le.mpr h1])]
        have hrec := ih s hn ht
        simp only [autoIrrigRun, hstep, hrec, irrigCrossLog, hd, h2']
        simp
    · have hd : decide (s.moistureTh < m) = false := by simpa using h1
      have hle : m ≤ s.moistureTh := Nat.not_lt.mp h1
      by_cases h2 : s.irrigationOn = true
      · -- switches OFF, logs value 0
        have hstep : autoIrrigStep s m =
            ((logEventO { s with irrigationOn := false } 0 0).1,
              (logEventO { s with irrigationOn := false } 0 0).2.toList) := by
          unfold autoIrrigStep
          rw [if_neg (by simp [h2]), if_pos ⟨hle, h2⟩]
        have hsnd := logEventO_snd_of_pos { s with irrigationOn := false } 0 0 hn
        have hrec := ih (logEventO { s with irrigationOn := false } 0 0).1
          (by rw [hL0]; exact hn) (by rw [hT0]; exact ht)
        rw [hM0, hT0, hI0] at hrec
        simp only [autoIrrigRun, hstep, hsnd, hrec, irrigCrossLog, hd, h2]
        simp [mkRecord, Nat.mod_eq_of_lt ht]
      · have h2' : s.irrigationOn = false := by
          simpa using h2
        have hstep : autoIrrigStep s m = (s, []) := by
          unfold autoIrrigStep
          rw [if_neg (by simp [h1]), if_neg (by simp [h2'])]
        have hrec := ih s hn ht
        simp only [autoIrrigRun, hstep, hrec, irrigCrossLog, hd, h2']
        simp

/-- C5: under a fixed moisture threshold, the auto-irrigation branch of
`autoControlTask` appends exactly one log entry per threshold crossing of
the moisture reading sequence — value 1 when the state switches ON, 0
when it switches OFF — and appends nothing on ticks where the state does
not change, even when successive readings differ on the same side. -/
theorem c5_irrigation_edge_logging (s : SysState) (ms : List Nat)
    (hn : 0 < numSlots s.eepromLen) (ht : s.currentTime < 4294967296) :
    (autoIrrigRun s ms).2 =
      irrigCrossLog s.currentTime s.moistureTh s.irrigationOn ms ∧
    (autoIrrigRun s ms).2.length =
      crossingCount s.moistureTh s.irrigationOn ms := by
  have h := autoIrrigRun_log ms s hn ht
  exact ⟨h, by rw [h, irrigCrossLog_length]⟩

theorem c5_irrigation_edge_logging_witness :
    (0 < numSlots initState.eepromLen ∧ initState.currentTime < 4294967296 ∧
      crossingCount initState.moistureTh initState.irrigationOn
        [600, 650, 400, 390, 600] = 3) ∧
    (autoIrrigRun initState [600, 650, 400, 390, 600]).2 =
      irrigCrossLog initState.currentTime initState.moistureTh
        initState.irrigationOn [600, 650, 400, 390, 600] ∧
    (autoIrrigRun initState [600, 650, 400, 390, 600]).2.length =
      crossingCount initState.moistureTh initState.irrigationOn
        [600, 650, 400, 390, 600] :=
  ⟨⟨by decide, by decide, by decide⟩,
    c5_irrigation_edge_logging initState [600, 650, 400, 390, 600]
      (by decide) (by decide)⟩

/-! ### Command parsing lemmas -/

theorem not_space_of_digit (c : Char) (h : isDigitC c = true) :
    isSpaceC c = false := by
  have h' := of_decide_eq_true h
  unfold isSpaceC
  rw [decide_eq_false_iff_not]
  omega

theorem ne_sign_of_digit (c : Char) (h : isDigitC c = true) :
    c ≠ '-' ∧ c ≠ '+' := by
  constructor <;> intro heq <;> subst heq <;> exact absurd h (by decide)

theorem takeWhile_digits_self (ds : List Char) (h : ∀ c ∈ ds, isDigitC c = true) :
    ds.takeWhile isDigitC = ds := by
  induction ds with
  | nil => rfl
  | cons c cs ih =>
    rw [List.takeWhile_cons, h c (by simp)]
    simp only [if_true]
    rw [ih (fun q hq => h q (by simp [hq]))]

theorem dropWhile_space_of_digit (c : Char) (cs : List Char)
    (h : isDigitC c = true) : (c :: cs).dropWhile isSpaceC = c :: cs := by
  rw [List.dropWhile_cons, not_space_of_digit c h]
  simp

theorem atoi_digits (ds : List Char) (hne : ds ≠ [])
    (hd : ∀ c ∈ ds, isDigitC c = true) (hval : digitsVal ds < 32768) :
    atoi ds = (digitsVal ds : Int) := by
  obtain ⟨c, cs, rfl⟩ := List.exists_cons_of_ne_nil hne
  unfold atoi
  rw [dropWhile_space_of_digit c cs (hd c (by simp))]
  unfold parseIntRaw
  dsimp only
  have hc := ne_sign_of_digit c (hd c (by simp))
  rw [if_neg hc.1, if_neg hc.2, takeWhile_digits_self _ hd]
  unfold wrapInt
  have h1 : (0 : Int) ≤ (digitsVal (c :: cs) : Int) + 2 ^ (16 - 1) := by positivity
  have h2 : (digitsVal (c :: cs) : Int) + 2 ^ (16 - 1) < 2 ^ 16 := by
    norm_num
    omega
  rw [Int.emod_eq_of_lt h1 h2]
  omega

theorem parse_store_eq_min (ds : List Char) (hne : ds ≠ [])
    (hd : ∀ c ∈ ds, isDigitC c = true) (hval : digitsVal ds ≤ 32767) :
    constrainN (toUInt 16 (atoi ds)) 0 1023 = min (digitsVal ds) 1023 := by
  rw [atoi_digits ds hne hd (by omega)]
  unfold toUInt
  rw [Int.emod_eq_of_lt (by positivity) (by norm_num; omega), Int.toNat_natCast]
  unfold constrainN
  rw [if_neg (by omega)]
  by_cases hx : 1023 < digitsVal ds
  · rw [if_pos hx]
    omega
  · rw [if_neg hx]
    omega

/-- C4 counterexample: the threshold-set line `M-1` (value `v = -1`)
stores 1023, not `clamp(-1, 0, 1023) = 0` — `atoi` yields the 16-bit
value `-1`, the `uint16_t` cast turns it into 65535 and `constrain`
clamps from above. -/
theorem c4_counterexample_negative_value :
    (handleCommand initState ['M', '-', '1']).1.moistureTh = 1023 ∧
    max 0 (min 1023 (-1 : Int)) = 0 ∧ (1023 : Nat) ≠ 0 := by decide

/-- C4 (amended): for a threshold-set line whose decimal value `v` is
nonnegative and within the 16-bit `int` range (`v ≤ 32767`), the stored
threshold is `clamp(v, 0, 1023)` and exactly one threshold-changed event
carrying the stored value is logged; values outside that range first wrap
through the 16-bit parse (so e.g. `M-1` stores 1023, not 0). -/
theorem c4_threshold_clamp_amended (s : SysState) (ds : List Char)
    (hne : ds ≠ []) (hd : ∀ c ∈ ds, isDigitC c = true)
    (hv : digitsVal ds ≤ 32767) (hn : 0 < numSlots s.eepromLen)
    (ht : s.currentTime < 4294967296) :
    (handleCommand s ('M' :: ds)).1.moistureTh = min (digitsVal ds) 1023 ∧
    (handleCommand s ('M' :: ds)).2 =
      [Out.appended ⟨s.currentTime, 3, min (digitsVal ds) 1023⟩] ∧
    (handleCommand s ('L' :: ds)).1.lightTh = min (digitsVal ds) 1023 ∧
    (handleCommand s ('L' :: ds)).2 =
      [Out.appended ⟨s.currentTime, 2, min (digitsVal ds) 1023⟩] := by
  have hlen2 : 2 ≤ ds.length + 1 := by
    have := List.length_pos.mpr hne
    omega
  have hth := parse_store_eq_min ds hne hd hv
  have hthle : min (digitsVal ds) 1023 < 65536 := by omega
  have hrec : ∀ ty, ty < 256 →
      mkRecord s.currentTime ty (min (digitsVal ds) 1023) =
        ⟨s.currentTime, ty, min (digitsVal ds) 1023⟩ := by
    intro ty hty
    unfold mkRecord
    rw [Nat.mod_eq_of_lt ht, Nat.mod_eq_of_lt hty, Nat.mod_eq_of_lt hthle]
  have hM : handleCommand s ('M' :: ds) =
      ((logEventO { s with moistureTh := min (digitsVal ds) 1023 } 3
          (min (digitsVal ds) 1023)).1,
        (logEventO { s with moistureTh := min (digitsVal ds) 1023 } 3
          (min (digitsVal ds) 1023)).2.toList.map Out.appended) := by
    unfold handleCommand
    dsimp only
    rw [if_neg (by decide), if_neg (by simp), if_neg (by simp), if_neg (by simp),
      if_neg (by simp), if_neg (by simp),
      if_pos ⟨by simpa using hlen2, rfl⟩]
    rw [hth]
  have hL : handleCommand s ('L' :: ds) =
      ((logEventO { s with lightTh := min (digitsVal ds) 1023 } 2
          (min (digitsVal ds) 1023)).1,
        (logEventO { s with lightTh := min (digitsVal ds) 1023 } 2
          (min (digitsVal ds) 1023)).2.toList.map Out.appended) := by
    unfold handleCommand
    dsimp only
    rw [if_neg (by decide), if_neg (by simp), if_neg (by simp), if_neg (by simp),
      if_neg (by simp), if_pos ⟨by simpa using hlen2, rfl⟩]
    rw [hth]
  refine ⟨?_, ?_, ?_, ?_⟩
  · rw [hM]
    exact (logEventO_fst_fields _ 3 _).2.1
  · rw [hM, logEventO_snd_of_pos { s with moistureTh := min (digitsVal ds) 1023 } 3
      (min (digitsVal ds) 1023) hn]
    simp only [Option.toList_some, List.map_cons, List.map_nil]
    rw [hrec 3 (by omega)]
  · rw [hL]
    exact (logEventO_fst_fields _ 2 _).2.2.1
  · rw [hL, logEventO_snd_of_pos { s with lightTh := min (digitsVal ds) 1023 } 2
      (min (digitsVal ds) 1023) hn]
    simp only [Option.toList_some, List.map_cons, List.map_nil]
    rw [hrec 2 (by omega)]

theorem c4_threshold_clamp_amended_witness :
    ((['2', '0', '0', '0'] : List Char) ≠ [] ∧
      (∀ c ∈ (['2', '0', '0', '0'] : List Char), isDigitC c = true) ∧
      digitsVal ['2', '0', '0', '0'] ≤ 32767 ∧ 0 < numSlots initState.eepromLen ∧
      initState.currentTime < 4294967296) ∧
    (handleCommand initState ('M' :: ['2', '0', '0', '0'])).1.moistureTh =
      min (digitsVal ['2', '0', '0', '0']) 1023 ∧
    (handleCommand initState ('M' :: ['2', '0', '0', '0'])).2 =
      [Out.appended ⟨initState.currentTime, 3, min (digitsVal ['2', '0', '0', '0']) 1023⟩] :=
  ⟨⟨by decide, by decide, by decide, by decide, by decide⟩,
    (c4_threshold_clamp_amended initState ['2', '0', '0', '0'] (by decide) (by decide)
      (by decide) (by decide) (by decide)).1,
    (c4_threshold_clamp_amended initState ['2', '0', '0', '0'] (by decide) (by decide)
      (by decide) (by decide) (by decide)).2.1⟩

/-- C9: a completed line that matches no dispatch rule produces only the
unknown-command echo of the received line and leaves the whole device
state — thresholds, current time, actuator states, log cursor and log
contents — unchanged; no log entry is appended. -/
theorem c9_unknown_command_no_effect (s : SysState) (c : Char) (rest : List Char)
    (hT : c ≠ 'T') (hG : c :: rest ≠ ['G']) (hD : c :: rest ≠ ['D'])
    (hX : c :: rest ≠ ['X']) (hZ : c :: rest ≠ ['Z'])
    (hL : ¬(2 ≤ (c :: rest).length ∧ c = 'L'))
    (hM : ¬(2 ≤ (c :: rest).length ∧ c = 'M')) :
    handleCommand s (c :: rest) = (s, [Out.unknown (c :: rest)]) := by
  unfold handleCommand
  dsimp only
  rw [if_neg hT, if_neg hG, if_neg hD, if_neg hX, if_neg hZ, if_neg hL, if_neg hM]

theorem c9_unknown_command_no_effect_witness :
    (('Q' : Char) ≠ 'T' ∧ (['Q', 'Q', 'Q'] : List Char) ≠ ['G'] ∧
      ¬(2 ≤ (['Q', 'Q', 'Q'] : List Char).length ∧ ('Q' : Char) = 'M')) ∧
    handleCommand initState ['Q', 'Q', 'Q'] = (initState, [Out.unknown ['Q', 'Q', 'Q']]) :=
  ⟨⟨by decide, by decide, by decide⟩,
    c9_unknown_command_no_effect initState 'Q' ['Q', 'Q'] (by decide) (by decide)
      (by decide) (by decide) (by decide) (by decide) (by decide)⟩

/-- C3 (behaviour at the failing input): after the 15-byte line
`ABCDEFGHIJKQM1\n` overflows the 12-byte command buffer, the code reports
the overflow but keeps accumulating the tail of the same line, and on the
terminator dispatches the fragment `M1` as a command — the moisture
threshold changes from 500 to 1, so a partial command is executed. -/
theorem c3_overflow_fragment_dispatched :
    (serialRxAll ⟨initState, []⟩ "ABCDEFGHIJKQM1\n".data).2 =
      [SOut.overflowErr,
        SOut.handled ['M', '1'] [Out.appended ⟨1704067200, 3, 1⟩]] ∧
    (serialRxAll ⟨initState, []⟩ "ABCDEFGHIJKQM1\n".data).1.sys.moistureTh = 1 ∧
    initState.moistureTh = 500 := by decide

/-- C6 (behaviour at the failing input): with light threshold 1 — a value
the device stores for the command `L1` — the reading 1023 drives the
commanded brightness to 255, not toward 0: the 32-bit `map` result
−260610 is truncated by `static_cast<int>` to the 16-bit value 1534
before `constrain` clamps, while the spec's own
`clamp(map(reading, 0, th, 255, 0), 0, 255)` yields 0. -/
theorem c6_brightness_int16_truncation :
    (handleCommand initState ['L', '1']).1.lightTh = 1 ∧
    autoBrightness 1023 1 = 255 ∧ specBrightness 1023 1 = 0 := by decide

/-- C8 (behaviour at the failing input): the time-set command `T-1` makes
`currentTime = 0xFFFFFFFF`, and the next append writes a record whose
timestamp is exactly the reserved empty-slot sentinel — a dump then stops
at the record, treating it as an empty slot. -/
theorem c8_sentinel_timestamp_logged :
    (handleCommand initState ['T', '-', '1']).1.currentTime = SENTINEL ∧
    (logEventO (handleCommand initState ['T', '-', '1']).1 4 100).2 =
      some ⟨SENTINEL, 4, 100⟩ ∧
    printLogs (logEventO (handleCommand initState ['T', '-', '1']).1 4 100).1 = [] := by
  decide

/-- C10 (behaviour at the failing input): with the 1024-byte EEPROM, the
`clearLogs` loop bound is `logDataAreaLength = 1020`, so it starts a
record write at offset 1015 even though the record-aligned usable length
is 1015 — that write spans bytes `1015 … 1021` of the log area, past the
usable region and past the end of the 1024-byte store
(`4 + 1015 + 7 = 1026 > 1024`). -/
theorem c10_clear_write_exceeds_region :
    1015 ∈ clearLogsOffsets AVR_EEPROM_LENGTH ∧
    usableLogLength AVR_EEPROM_LENGTH = 1015 ∧
    usableLogLength AVR_EEPROM_LENGTH < 1015 + RECORD_SIZE ∧
    AVR_EEPROM_LENGTH < LOG_START_ADDRESS + 1015 + RECORD_SIZE := by decide

end SysController
